import Mathlib

/-!
Shallow embedding of `src/trade_graph.py` (class `TradeGraph`).

Modelling conventions:
- Trade amounts and deficits are modelled as rationals (`ℚ`); the Python code
  computes with machine floats, but every claim under study is an exact
  arithmetic statement about the algorithm.
- The networkx `DiGraph` is modelled as an insertion-ordered list of nodes
  (name paired with the attribute record set in `__init__`) together with an
  insertion-ordered list of directed edges `(source, target, amount)`.
  networkx guarantees at most one stored edge per ordered pair and that both
  endpoints of an edge are nodes; these facts are carried as the `WellFormed`
  predicate where a proof needs them.
- Raised Python exceptions are modelled as `Except String` / `Option String`
  error results; a division whose denominator is zero is the
  `ZeroDivisionError` of Python numbers. (With the empty in-edge list the
  dividend and divisor are the built-in int `0`, so the raise is forced
  regardless of the dtype of the data.)
- The plotting tail of `plot_export_restriction_scenario` (the plotly figure,
  locust/poverty overlays) and the pickled name-to-ISO / name-to-centroid
  tables are presentation and external reference data; the lookup tables
  enter the builder as explicit functions `String → Option _` whose `none`
  case is the dict `KeyError`.
-/

/-- One row of the `trade_data` table: columns `partner`, `reporter`,
`element`, `value` (see `TradeGraph.__init__`'s docstring). -/
structure TradeRow where
  partner : String
  reporter : String
  element : String
  value : ℚ
deriving DecidableEq

/-- The node attribute record set in `TradeGraph.__init__` (the locust/covid
string fields are omitted: the computational core never reads them). -/
structure NodeData where
  name : String
  iso : String
  centroid : ℚ × ℚ
  production : ℚ
  population : ℚ
  deficit : ℚ
  deficit_relative : ℚ
deriving DecidableEq

/-- The `TradeGraph` state: the networkx digraph (nodes with attributes, in
insertion order, and directed weighted edges) plus the `sum_of_trade`
aggregate computed at the end of `__init__`. -/
structure TradeGraph where
  nodes : List (String × NodeData)
  edges : List (String × String × ℚ)
  sum_of_trade : ℚ
deriving DecidableEq

namespace TradeGraph

/-- The node names, in insertion order. -/
def nodeNames (g : TradeGraph) : List String :=
  g.nodes.map Prod.fst

/-- `country in self.G.nodes`. -/
def hasNode (g : TradeGraph) (c : String) : Bool :=
  g.nodes.any (fun p => p.1 == c)

/-- `self.G.has_edge(u, v)`. -/
def hasEdge (g : TradeGraph) (u v : String) : Bool :=
  g.edges.any (fun e => e.1 == u && e.2.1 == v)

/-- `self.G.get_edge_data(u, v)['amount']`; `none` models the lookup failing
because the edge is absent. -/
def getEdgeAmount (g : TradeGraph) (u v : String) : Option ℚ :=
  (g.edges.find? (fun e => e.1 == u && e.2.1 == v)).map (fun e => e.2.2)

/-- `self.G.out_edges(country)` (with the stored amount carried along). -/
def outEdges (g : TradeGraph) (c : String) : List (String × String × ℚ) :=
  g.edges.filter (fun e => e.1 == c)

/-- `self.G.in_edges(country)` (with the stored amount carried along). -/
def inEdges (g : TradeGraph) (c : String) : List (String × String × ℚ) :=
  g.edges.filter (fun e => e.2.1 == c)

/-- `TradeGraph.get_import_sum`. -/
def get_import_sum (g : TradeGraph) (c : String) : ℚ :=
  ((inEdges g c).map (fun e => e.2.2)).sum

/-- `TradeGraph.get_export_sum`. -/
def get_export_sum (g : TradeGraph) (c : String) : ℚ :=
  ((outEdges g c).map (fun e => e.2.2)).sum

/-- Read a node's `deficit` attribute (`nx.get_node_attributes(self.G, 'deficit')[c]`). -/
def getDeficit (g : TradeGraph) (c : String) : ℚ :=
  ((g.nodes.find? (fun p => p.1 == c)).map (fun p => p.2.deficit)).getD 0

/-- Read a node's `deficit_relative` attribute. -/
def getDeficitRelative (g : TradeGraph) (c : String) : ℚ :=
  ((g.nodes.find? (fun p => p.1 == c)).map (fun p => p.2.deficit_relative)).getD 0

/-- Write one node's `deficit` attribute. -/
def setDeficit (g : TradeGraph) (c : String) (q : ℚ) : TradeGraph :=
  { g with nodes := g.nodes.map (fun p => if p.1 == c then (p.1, { p.2 with deficit := q }) else p) }

/-- Write one node's `deficit_relative` attribute. -/
def setDeficitRelative (g : TradeGraph) (c : String) (q : ℚ) : TradeGraph :=
  { g with nodes := g.nodes.map (fun p => if p.1 == c then (p.1, { p.2 with deficit_relative := q }) else p) }

/-- `nx.set_node_attributes(self.G, dict, 'deficit')`: apply a batch of
per-name deficit writes (a Python dict literal with duplicate keys keeps the
last value, exactly as the left fold does). -/
def setAll (g : TradeGraph) (kvs : List (String × ℚ)) : TradeGraph :=
  kvs.foldl (fun acc kv => setDeficit acc kv.1 kv.2) g

/-- `TradeGraph.reset_deficits`: set every node's `deficit` and
`deficit_relative` to zero. -/
def reset_deficits (g : TradeGraph) : TradeGraph :=
  { g with nodes := g.nodes.map (fun p => (p.1, { p.2 with deficit := 0, deficit_relative := 0 })) }

/-- `TradeGraph.get_absolute_deficit`: the stored edge amount times the
reduction; `none` models the edge-data lookup failing. -/
def get_absolute_deficit (g : TradeGraph) (source partner : String) (reduction : ℚ) : Option ℚ :=
  (getEdgeAmount g source partner).map (fun a => a * reduction)

/-- `TradeGraph.apply_deficits`: build the dict
`{partner: old_deficit_read_from_g + amount * reduction for each out-edge}`
(all reads against the graph as it was at call entry) and write it back with
`nx.set_node_attributes`. networkx yields each out-edge of `source` once,
with its stored amount. -/
def apply_deficits (g : TradeGraph) (source : String) (reduction : ℚ) : TradeGraph :=
  setAll g ((outEdges g source).map (fun e => (e.2.1, getDeficit g e.2.1 + e.2.2 * reduction)))

/-- `TradeGraph.total_deficits` aggregation used at line 200:
`sum(self.list_node_attributes('deficit'))`. -/
def total_deficits (g : TradeGraph) : ℚ :=
  (g.nodes.map (fun p => p.2.deficit)).sum

/-- The loop body of `TradeGraph.update_relative_deficits`, walking the node
list in order; a zero import sum raises `ZeroDivisionError` at that node and
aborts the loop, leaving the writes made so far in place. -/
def updateRelLoop (g : TradeGraph) : List String → TradeGraph × Option String
  | [] => (g, none)
  | c :: rest =>
    if get_import_sum g c = 0 then
      (g, some "ZeroDivisionError: division by zero")
    else
      updateRelLoop (setDeficitRelative g c (getDeficit g c / get_import_sum g c * 100)) rest

/-- `TradeGraph.update_relative_deficits`: for every country set
`deficit_relative = deficit / import_sum * 100`. -/
def update_relative_deficits (g : TradeGraph) : TradeGraph × Option String :=
  updateRelLoop g (nodeNames g)

/-- The scenario loop of `plot_export_restriction_scenario` (lines 195-198):
validate each source against the node set, raising
`ValueError(f'{source} is not in graph')`, and otherwise apply the deficits
for `reduction = 1 - export_fraction`. -/
def applyScenario (g : TradeGraph) : List (String × ℚ) → TradeGraph × Option String
  | [] => (g, none)
  | (source, export_fraction) :: rest =>
    if hasNode g source then
      applyScenario (apply_deficits g source (1 - export_fraction)) rest
    else
      (g, some ("ValueError: " ++ source ++ " is not in graph"))

/-- Lines 200-203 of `plot_export_restriction_scenario`, applied to the state
after the scenario loop: compute `total_deficits` and
`total_relative_deficit = total_deficits / sum_of_trade * 100` (a zero
`sum_of_trade` raises), then run `update_relative_deficits`. The second
component is the pair (total deficit, global relative shortfall) the call
goes on to render, or the exception that escaped. -/
def evalTail (r : TradeGraph × Option String) : TradeGraph × Except String (ℚ × ℚ) :=
  match r.2 with
  | some e => (r.1, Except.error e)
  | none =>
    if r.1.sum_of_trade = 0 then
      (r.1, Except.error "ZeroDivisionError: division by zero")
    else
      match (update_relative_deficits r.1).2 with
      | some e => ((update_relative_deficits r.1).1, Except.error e)
      | none =>
        ((update_relative_deficits r.1).1,
         Except.ok (total_deficits r.1, total_deficits r.1 / r.1.sum_of_trade * 100))

/-- The computational core of `TradeGraph.plot_export_restriction_scenario`
(lines 193-203): reset all per-node deficit state, run the scenario loop,
then derive the global totals and the relative deficits. Returns the mutated
graph together with either the computed (total deficit, global shortfall)
pair or the exception the call raised. -/
def plot_export_restriction_scenario (g : TradeGraph) (scenario : List (String × ℚ)) :
    TradeGraph × Except String (ℚ × ℚ) :=
  evalTail (applyScenario (reset_deficits g) scenario)

/-- `TradeGraph.create_nx_edge_from_trade_row`: derive the directed edge from
a trade record; any other `element` prints `Unknown edge type: ...` and
falls through, returning `None`. -/
def create_nx_edge_from_trade_row (row : TradeRow) : Option (String × String) :=
  if row.element = "Import Quantity" then
    some (row.partner, row.reporter)
  else if row.element = "Export Quantity" then
    some (row.reporter, row.partner)
  else
    none

/-- `TradeGraph.get_combined_trade_estimate`: the mean of the stored amount
and the new report; `none` models the edge-data lookup failing. -/
def get_combined_trade_estimate (g : TradeGraph) (u v : String) (new_amount : ℚ) : Option ℚ :=
  (getEdgeAmount g u v).map (fun a => (a + new_amount) / 2)

/-- The attribute record `__init__` sets for an explicitly added partner
country. -/
def defaultNodeData (name iso : String) (cen : ℚ × ℚ) : NodeData :=
  { name := name, iso := iso, centroid := cen, production := 0, population := 0,
    deficit := 0, deficit_relative := 0 }

/-- A node that networkx creates implicitly when `add_edge` names a country
that was never a `partner` (it carries no attributes; the fields are
defaulted, and its `deficit`/`deficit_relative` only ever get read after
`reset_deficits` has populated them). -/
def implicitNodeData : NodeData :=
  { name := "", iso := "", centroid := (0, 0), production := 0, population := 0,
    deficit := 0, deficit_relative := 0 }

/-- networkx `add_edge` adds a missing endpoint as a fresh attribute-less
node. -/
def ensureNode (g : TradeGraph) (c : String) : TradeGraph :=
  if hasNode g c then g else { g with nodes := g.nodes ++ [(c, implicitNodeData)] }

/-- `self.G.add_edge(u, v, amount=a)`: both endpoints are ensured to exist,
and the amount of an already-present ordered pair is overwritten (networkx
never stores parallel edges in a `DiGraph`). -/
def add_edge (g : TradeGraph) (u v : String) (amount : ℚ) : TradeGraph :=
  let g1 := ensureNode (ensureNode g u) v
  if hasEdge g1 u v then
    { g1 with edges := g1.edges.map (fun e => if e.1 == u && e.2.1 == v then (u, v, amount) else e) }
  else
    { g1 with edges := g1.edges ++ [(u, v, amount)] }

/-- One iteration of the edge loop in `__init__` (lines 76-89): derive the
edge (a `None` from an unrecognized element makes the following membership
test `'Unspecified Area' in edge` raise
`TypeError: argument of type NoneType is not iterable`), skip sentinel
records, and add or merge the edge. -/
def addTradeRow (g : TradeGraph) (row : TradeRow) : Except String TradeGraph :=
  match create_nx_edge_from_trade_row row with
  | none => Except.error "TypeError: argument of type NoneType is not iterable"
  | some (u, v) =>
    if u = "Unspecified Area" ∨ v = "Unspecified Area" then
      Except.ok g
    else if hasEdge g u v then
      Except.ok (add_edge g u v ((get_combined_trade_estimate g u v row.value).getD 0))
    else
      Except.ok (add_edge g u v row.value)

/-- The edge loop of `__init__`. -/
def buildEdges (g : TradeGraph) : List TradeRow → Except String TradeGraph
  | [] => Except.ok g
  | row :: rest =>
    match addTradeRow g row with
    | Except.error e => Except.error e
    | Except.ok g' => buildEdges g' rest

/-- `trade_data.partner.unique()`: the distinct partner names in first-
occurrence order. -/
def uniqueFirst (l : List String) : List String :=
  l.foldl (fun acc c => if c ∈ acc then acc else acc ++ [c]) []

/-- The node loop of `__init__` (lines 55-73): skip the sentinel
`'Unspecified Area'`, resolve ISO code and centroid (a dict miss raises
`KeyError`), and add the node with its attribute record. -/
def buildNodes (iso : String → Option String) (cen : String → Option (ℚ × ℚ)) :
    TradeGraph → List String → Except String TradeGraph
  | g, [] => Except.ok g
  | g, c :: rest =>
    if c = "Unspecified Area" then
      buildNodes iso cen g rest
    else
      match iso c, cen c with
      | some i, some p =>
        buildNodes iso cen { g with nodes := g.nodes ++ [(c, defaultNodeData c i p)] } rest
      | _, _ => Except.error ("KeyError: " ++ c)

/-- `TradeGraph.__init__` restricted to its computational content: build the
node set from the distinct partners, run the edge loop over the records in
order, then compute `sum_of_trade` as the sum of all final edge amounts.
(The `locust_data` / `poverty_data` arguments are plotting inputs and are
not modelled.) -/
def build (iso : String → Option String) (cen : String → Option (ℚ × ℚ))
    (rows : List TradeRow) : Except String TradeGraph :=
  match buildNodes iso cen ⟨[], [], 0⟩ (uniqueFirst (rows.map (fun r => r.partner))) with
  | Except.error e => Except.error e
  | Except.ok g1 =>
    match buildEdges g1 rows with
    | Except.error e => Except.error e
    | Except.ok g2 => Except.ok { g2 with sum_of_trade := (g2.edges.map (fun e => e.2.2)).sum }

/-- The invariants networkx maintains for every graph the program ever holds:
distinct node names, at most one stored edge per ordered pair, and both
endpoints of every edge present as nodes. -/
def WellFormed (g : TradeGraph) : Prop :=
  (nodeNames g).Nodup ∧
  (g.edges.map (fun e => (e.1, e.2.1))).Nodup ∧
  ∀ e ∈ g.edges, e.1 ∈ nodeNames g ∧ e.2.1 ∈ nodeNames g

instance (g : TradeGraph) : Decidable (WellFormed g) := by
  unfold WellFormed
  infer_instance

/-- Per-country deficit contributed by restricting `source` with reduction
`r`, read off the (immutable) edge list `E`: the amount of the out-edge
`source → n`, scaled by `r`. -/
def offsum (E : List (String × String × ℚ)) (source : String) (r : ℚ) (n : String) : ℚ :=
  (((E.filter (fun e => e.1 == source)).filter (fun e => e.2.1 == n)).map (fun e => e.2.2 * r)).sum

/-- Per-country deficit accumulated over a whole scenario. -/
def scenarioOffset (E : List (String × String × ℚ)) (S : List (String × ℚ)) (n : String) : ℚ :=
  (S.map (fun p => offsum E p.1 (1 - p.2) n)).sum

/-- Add a per-name offset to every node's deficit (the closed form of the
scenario loop). -/
def addOffsets (g : TradeGraph) (off : String → ℚ) : TradeGraph :=
  { g with nodes := g.nodes.map (fun p => (p.1, { p.2 with deficit := p.2.deficit + off p.1 })) }

/-- Test registry: resolves every name to a synthetic ISO code. -/
def isoAll : String → Option String := fun n => some (n ++ "_ISO")

/-- Test registry: resolves every name to the origin centroid. -/
def cenAll : String → Option (ℚ × ℚ) := fun _ => some (0, 0)

/-- The trade records of the spec's example scenario: two export reports
giving edges `A→B` amount 100 and `A→C` amount 50. -/
def exampleRows : List TradeRow :=
  [⟨"B", "A", "Export Quantity", 100⟩, ⟨"C", "A", "Export Quantity", 50⟩]

/-- The graph `__init__` builds from `exampleRows`: explicit partner nodes
`B`, `C`, the implicitly added exporter `A`, edges `A→B` 100 and `A→C` 50,
`sum_of_trade = 150`. -/
def gEx : TradeGraph :=
  { nodes := [("B", defaultNodeData "B" "B_ISO" (0, 0)),
              ("C", defaultNodeData "C" "C_ISO" (0, 0)),
              ("A", implicitNodeData)],
    edges := [("A", "B", 100), ("A", "C", 50)],
    sum_of_trade := 150 }

/-- A two-country graph with the single edge `A→B` amount 100. -/
def gW : TradeGraph :=
  { nodes := [("A", defaultNodeData "A" "A_ISO" (0, 0)),
              ("B", defaultNodeData "B" "B_ISO" (0, 0))],
    edges := [("A", "B", 100)],
    sum_of_trade := 100 }

/-- `gW` carrying a leftover deficit of 20 on `B` from an earlier run. -/
def gPrior : TradeGraph :=
  { nodes := [("A", defaultNodeData "A" "A_ISO" (0, 0)),
              ("B", { defaultNodeData "B" "B_ISO" (0, 0) with deficit := 20 })],
    edges := [("A", "B", 100)],
    sum_of_trade := 100 }

/-- A trade record whose `element` is neither recognized value. -/
def rowBad : TradeRow := ⟨"B", "A", "Production", 5⟩

/-! ### Basic structural lemmas -/

theorem tg_ext {g1 g2 : TradeGraph} (h1 : g1.nodes = g2.nodes) (h2 : g1.edges = g2.edges)
    (h3 : g1.sum_of_trade = g2.sum_of_trade) : g1 = g2 := by
  cases g1; cases g2; simp_all

theorem hasNode_eq_any (g : TradeGraph) (c : String) :
    hasNode g c = (nodeNames g).any (fun x => x == c) := by
  simp only [hasNode, nodeNames]
  induction g.nodes with
  | nil => rfl
  | cons p t ih => simp [List.any_cons, ih]

theorem hasNode_iff {g : TradeGraph} {c : String} : hasNode g c = true ↔ c ∈ nodeNames g := by
  simp [hasNode_eq_any, List.any_eq_true]

theorem hasNode_congr {g' g : TradeGraph} (h : nodeNames g' = nodeNames g) (c : String) :
    hasNode g' c = hasNode g c := by
  rw [hasNode_eq_any, hasNode_eq_any, h]

theorem get_import_sum_congr {g' g : TradeGraph} (h : g'.edges = g.edges) (c : String) :
    get_import_sum g' c = get_import_sum g c := by
  simp [get_import_sum, inEdges, h]

/-! ### Frame lemmas: the deficit writes leave everything else alone -/

theorem setDeficit_edges (g : TradeGraph) (c : String) (q : ℚ) :
    (setDeficit g c q).edges = g.edges := rfl

theorem setDeficit_sum (g : TradeGraph) (c : String) (q : ℚ) :
    (setDeficit g c q).sum_of_trade = g.sum_of_trade := rfl

theorem nodeNames_setDeficit (g : TradeGraph) (c : String) (q : ℚ) :
    nodeNames (setDeficit g c q) = nodeNames g := by
  simp only [nodeNames, setDeficit, List.map_map]
  exact List.map_congr_left fun p _ => by by_cases h : p.1 == c <;> simp [h, Function.comp]

theorem setDeficitRelative_edges (g : TradeGraph) (c : String) (q : ℚ) :
    (setDeficitRelative g c q).edges = g.edges := rfl

theorem setDeficitRelative_sum (g : TradeGraph) (c : String) (q : ℚ) :
    (setDeficitRelative g c q).sum_of_trade = g.sum_of_trade := rfl

theorem nodeNames_setDeficitRelative (g : TradeGraph) (c : String) (q : ℚ) :
    nodeNames (setDeficitRelative g c q) = nodeNames g := by
  simp only [nodeNames, setDeficitRelative, List.map_map]
  exact List.map_congr_left fun p _ => by by_cases h : p.1 == c <;> simp [h, Function.comp]

theorem setAll_edges (kvs : List (String × ℚ)) (g : TradeGraph) :
    (setAll g kvs).edges = g.edges := by
  induction kvs generalizing g with
  | nil => rfl
  | cons kv rest ih => simpa [setAll, setDeficit_edges] using ih (setDeficit g kv.1 kv.2)

theorem setAll_sum (kvs : List (String × ℚ)) (g : TradeGraph) :
    (setAll g kvs).sum_of_trade = g.sum_of_trade := by
  induction kvs generalizing g with
  | nil => rfl
  | cons kv rest ih => simpa [setAll, setDeficit_sum] using ih (setDeficit g kv.1 kv.2)

theorem nodeNames_setAll (kvs : List (String × ℚ)) (g : TradeGraph) :
    nodeNames (setAll g kvs) = nodeNames g := by
  induction kvs generalizing g with
  | nil => rfl
  | cons kv rest ih =>
    simpa [setAll, nodeNames_setDeficit] using ih (setDeficit g kv.1 kv.2)

theorem apply_deficits_edges (g : TradeGraph) (s : String) (r : ℚ) :
    (apply_deficits g s r).edges = g.edges := setAll_edges _ _

theorem apply_deficits_sum (g : TradeGraph) (s : String) (r : ℚ) :
    (apply_deficits g s r).sum_of_trade = g.sum_of_trade := setAll_sum _ _

theorem nodeNames_apply_deficits (g : TradeGraph) (s : String) (r : ℚ) :
    nodeNames (apply_deficits g s r) = nodeNames g := nodeNames_setAll _ _

theorem applyScenario_edges (S : List (String × ℚ)) (g : TradeGraph) :
    (applyScenario g S).1.edges = g.edges := by
  induction S generalizing g with
  | nil => rfl
  | cons p rest ih =>
    by_cases h : hasNode g p.1 <;>
      simp [applyScenario, h, ih (apply_deficits g p.1 (1 - p.2)), apply_deficits_edges]

theorem applyScenario_sum (S : List (String × ℚ)) (g : TradeGraph) :
    (applyScenario g S).1.sum_of_trade = g.sum_of_trade := by
  induction S generalizing g with
  | nil => rfl
  | cons p rest ih =>
    by_cases h : hasNode g p.1 <;>
      simp [applyScenario, h, ih (apply_deficits g p.1 (1 - p.2)), apply_deficits_sum]

theorem nodeNames_applyScenario (S : List (String × ℚ)) (g : TradeGraph) :
    nodeNames (applyScenario g S).1 = nodeNames g := by
  induction S generalizing g with
  | nil => rfl
  | cons p rest ih =>
    by_cases h : hasNode g p.1 <;>
      simp [applyScenario, h, ih (apply_deficits g p.1 (1 - p.2)), nodeNames_apply_deficits]

theorem updateRelLoop_edges (l : List String) (g : TradeGraph) :
    (updateRelLoop g l).1.edges = g.edges := by
  induction l generalizing g with
  | nil => rfl
  | cons c rest ih =>
    by_cases h : get_import_sum g c = 0 <;>
      simp [updateRelLoop, h, ih, setDeficitRelative_edges]

theorem updateRelLoop_sum (l : List String) (g : TradeGraph) :
    (updateRelLoop g l).1.sum_of_trade = g.sum_of_trade := by
  induction l generalizing g with
  | nil => rfl
  | cons c rest ih =>
    by_cases h : get_import_sum g c = 0 <;>
      simp [updateRelLoop, h, ih, setDeficitRelative_sum]

theorem reset_edges (g : TradeGraph) : (reset_deficits g).edges = g.edges := rfl

theorem reset_sum (g : TradeGraph) : (reset_deficits g).sum_of_trade = g.sum_of_trade := rfl

theorem nodeNames_reset (g : TradeGraph) : nodeNames (reset_deficits g) = nodeNames g := by
  simp [nodeNames, reset_deficits, List.map_map, Function.comp]

/-! ### `reset_deficits` absorbs every deficit write: the state any
evaluation leaves behind is indistinguishable, after the next reset, from
the freshly built graph. -/

theorem reset_setDeficit (g : TradeGraph) (c : String) (q : ℚ) :
    reset_deficits (setDeficit g c q) = reset_deficits g := by
  refine tg_ext ?_ rfl rfl
  simp only [reset_deficits, setDeficit, List.map_map]
  exact List.map_congr_left fun p _ => by by_cases h : p.1 == c <;> simp [h, Function.comp]

theorem reset_setDeficitRelative (g : TradeGraph) (c : String) (q : ℚ) :
    reset_deficits (setDeficitRelative g c q) = reset_deficits g := by
  refine tg_ext ?_ rfl rfl
  simp only [reset_deficits, setDeficitRelative, List.map_map]
  exact List.map_congr_left fun p _ => by by_cases h : p.1 == c <;> simp [h, Function.comp]

theorem reset_setAll (kvs : List (String × ℚ)) (g : TradeGraph) :
    reset_deficits (setAll g kvs) = reset_deficits g := by
  induction kvs generalizing g with
  | nil => rfl
  | cons kv rest ih =>
    simpa [setAll, reset_setDeficit] using ih (setDeficit g kv.1 kv.2)

theorem reset_apply_deficits (g : TradeGraph) (s : String) (r : ℚ) :
    reset_deficits (apply_deficits g s r) = reset_deficits g := reset_setAll _ _

theorem reset_applyScenario (S : List (String × ℚ)) (g : TradeGraph) :
    reset_deficits (applyScenario g S).1 = reset_deficits g := by
  induction S generalizing g with
  | nil => rfl
  | cons p rest ih =>
    by_cases h : hasNode g p.1 <;>
      simp [applyScenario, h, ih (apply_deficits g p.1 (1 - p.2)), reset_apply_deficits]

theorem reset_updateRelLoop (l : List String) (g : TradeGraph) :
    reset_deficits (updateRelLoop g l).1 = reset_deficits g := by
  induction l generalizing g with
  | nil => rfl
  | cons c rest ih =>
    by_cases h : get_import_sum g c = 0 <;>
      simp [updateRelLoop, h, ih, reset_setDeficitRelative]

theorem reset_reset (g : TradeGraph) :
    reset_deficits (reset_deficits g) = reset_deficits g := by
  refine tg_ext ?_ rfl rfl
  simp [reset_deficits, List.map_map, Function.comp]

theorem evalTail_fst (r : TradeGraph × Option String) :
    (evalTail r).1 = r.1 ∨ (evalTail r).1 = (update_relative_deficits r.1).1 := by
  rcases r with ⟨g, o⟩
  cases o with
  | some e => exact Or.inl rfl
  | none =>
    by_cases h : g.sum_of_trade = 0
    · exact Or.inl (by simp [evalTail, h])
    · refine Or.inr ?_
      simp only [evalTail, h]
      cases hu : (update_relative_deficits g).2 <;> simp [hu]

theorem reset_evalTail (r : TradeGraph × Option String) :
    reset_deficits (evalTail r).1 = reset_deficits r.1 := by
  rcases evalTail_fst r with h | h <;> rw [h]
  exact reset_updateRelLoop _ _

theorem reset_plot_fst (g : TradeGraph) (S : List (String × ℚ)) :
    reset_deficits (plot_export_restriction_scenario g S).1 = reset_deficits g := by
  unfold plot_export_restriction_scenario
  rw [reset_evalTail, reset_applyScenario, reset_reset]

/-! ### `total_deficits` is untouched by the relative-deficit pass -/

theorem total_setDeficitRelative (g : TradeGraph) (c : String) (q : ℚ) :
    total_deficits (setDeficitRelative g c q) = total_deficits g := by
  simp only [total_deficits, setDeficitRelative, List.map_map]
  exact congrArg List.sum
    (List.map_congr_left fun p _ => by by_cases h : p.1 == c <;> simp [h, Function.comp])

theorem total_updateRelLoop (l : List String) (g : TradeGraph) :
    total_deficits (updateRelLoop g l).1 = total_deficits g := by
  induction l generalizing g with
  | nil => rfl
  | cons c rest ih =>
    by_cases h : get_import_sum g c = 0 <;>
      simp [updateRelLoop, h, ih, total_setDeficitRelative]

theorem total_evalTail (r : TradeGraph × Option String) :
    total_deficits (evalTail r).1 = total_deficits r.1 := by
  rcases evalTail_fst r with h | h <;> rw [h]
  exact total_updateRelLoop _ _

/-! ### The scenario loop under a valid scenario, and the division-by-zero
behaviour of the relative-deficit pass -/

theorem applyScenario_valid_snd (S : List (String × ℚ)) (g : TradeGraph)
    (h : ∀ p ∈ S, hasNode g p.1 = true) : (applyScenario g S).2 = none := by
  induction S generalizing g with
  | nil => rfl
  | cons p rest ih =>
    obtain ⟨s, f⟩ := p
    have hp : hasNode g s = true := h _ (List.mem_cons_self _ _)
    simp only [applyScenario, hp, if_true]
    refine ih _ fun q hq => ?_
    rw [hasNode_congr (nodeNames_apply_deficits g s (1 - f))]
    exact h q (List.mem_cons_of_mem _ hq)

theorem applyScenario_append (pre rest : List (String × ℚ)) (g : TradeGraph)
    (h : ∀ p ∈ pre, hasNode g p.1 = true) :
    applyScenario g (pre ++ rest) = applyScenario (applyScenario g pre).1 rest := by
  induction pre generalizing g with
  | nil => rfl
  | cons p t ih =>
    obtain ⟨s, f⟩ := p
    have hp : hasNode g s = true := h _ (List.mem_cons_self _ _)
    simp only [List.cons_append, applyScenario, hp, if_true]
    refine ih _ fun q hq => ?_
    rw [hasNode_congr (nodeNames_apply_deficits g s (1 - f))]
    exact h q (List.mem_cons_of_mem _ hq)

theorem applyScenario_unknown (g : TradeGraph) (src : String) (f : ℚ)
    (post : List (String × ℚ)) (hsrc : hasNode g src = false) :
    applyScenario g ((src, f) :: post) =
      (g, some ("ValueError: " ++ src ++ " is not in graph")) := by
  simp [applyScenario, hsrc]

theorem updateRelLoop_err (l : List String) (g : TradeGraph) (c : String)
    (hc : c ∈ l) (h0 : get_import_sum g c = 0) :
    (updateRelLoop g l).2 = some "ZeroDivisionError: division by zero" := by
  induction l generalizing g with
  | nil => cases hc
  | cons d rest ih =>
    by_cases hd : get_import_sum g d = 0
    · simp [updateRelLoop, hd]
    · have hcd : c ≠ d := fun hx => hd (hx ▸ h0)
      have hc' : c ∈ rest := by
        rcases List.mem_cons.mp hc with hx | hx
        · exact absurd hx hcd
        · exact hx
      simp only [updateRelLoop, if_neg hd]
      refine ih _ hc' ?_
      rw [get_import_sum_congr (setDeficitRelative_edges _ _ _)]
      exact h0

theorem update_relative_deficits_err (g : TradeGraph) (c : String)
    (hc : c ∈ nodeNames g) (h0 : get_import_sum g c = 0) :
    (update_relative_deficits g).2 = some "ZeroDivisionError: division by zero" :=
  updateRelLoop_err _ _ _ hc h0

theorem get_import_sum_of_no_inEdges (g : TradeGraph) (c : String)
    (h : inEdges g c = []) : get_import_sum g c = 0 := by
  rw [get_import_sum, h]; rfl

/-! ### Closed form of `apply_deficits`: a batch of absolute writes with
pairwise-distinct keys adds, node-wise, the out-edge contribution -/

theorem setAll_nodes (kvs : List (String × ℚ)) (g : TradeGraph)
    (hk : (kvs.map Prod.fst).Nodup) :
    (setAll g kvs).nodes = g.nodes.map (fun p =>
      match kvs.find? (fun kv => kv.1 == p.1) with
      | some kv => (p.1, { p.2 with deficit := kv.2 })
      | none => p) := by
  induction kvs generalizing g with
  | nil => simp [setAll]
  | cons kv rest ih =>
    have hk1 : kv.1 ∉ rest.map Prod.fst := (List.nodup_cons.mp hk).1
    have hk2 : (rest.map Prod.fst).Nodup := (List.nodup_cons.mp hk).2
    have hstep : setAll g (kv :: rest) = setAll (setDeficit g kv.1 kv.2) rest := rfl
    rw [hstep, ih _ hk2]
    rw [show (setDeficit g kv.1 kv.2).nodes =
        g.nodes.map (fun p => if p.1 == kv.1 then (p.1, { p.2 with deficit := kv.2 }) else p)
      from rfl]
    rw [List.map_map]
    refine List.map_congr_left fun p _ => ?_
    by_cases hp : kv.1 = p.1
    · have hb : (p.1 == kv.1) = true := by simp [hp]
      have hb' : (kv.1 == p.1) = true := by simp [hp]
      have hnone : rest.find? (fun q => q.1 == p.1) = none := by
        refine List.find?_eq_none.mpr fun q hq => ?_
        simp only [beq_iff_eq]
        intro hqe
        exact hk1 (by rw [hp, ← hqe]; exact List.mem_map_of_mem Prod.fst hq)
      simp [Function.comp, hb, List.find?_cons, hb', hnone]
    · have hb : (p.1 == kv.1) = false := by
        simp only [beq_eq_false_iff_ne]
        exact fun h => hp h.symm
      have hb' : (kv.1 == p.1) = false := by simpa using hp
      simp [Function.comp, hb, List.find?_cons, hb']

theorem find?_name_of_mem {nodes : List (String × NodeData)}
    (hnd : (nodes.map Prod.fst).Nodup) {p : String × NodeData} (hp : p ∈ nodes) :
    nodes.find? (fun q => q.1 == p.1) = some p := by
  induction nodes with
  | nil => cases hp
  | cons q t ih =>
    rw [List.map_cons] at hnd
    obtain ⟨hnd1, hnd2⟩ := List.nodup_cons.mp hnd
    rcases List.mem_cons.mp hp with rfl | hpt
    · simp [List.find?_cons]
    · have hq1 : (q.1 == p.1) = false := by
        simp only [beq_eq_false_iff_ne]
        intro he
        exact hnd1 (by rw [he]; exact List.mem_map_of_mem Prod.fst hpt)
      rw [List.find?_cons, hq1]
      exact ih hnd2 hpt

theorem getDeficit_of_mem {g : TradeGraph} (hnd : (nodeNames g).Nodup)
    {p : String × NodeData} (hp : p ∈ g.nodes) : getDeficit g p.1 = p.2.deficit := by
  rw [getDeficit, find?_name_of_mem hnd hp]
  rfl

theorem nodup_dst_of_nodup_keys {l : List (String × String × ℚ)} (s : String)
    (h : (l.map (fun e => (e.1, e.2.1))).Nodup) (hs : ∀ e ∈ l, e.1 = s) :
    (l.map (fun e => e.2.1)).Nodup := by
  induction l with
  | nil => simp
  | cons e t ih =>
    simp only [List.map_cons, List.nodup_cons] at h ⊢
    refine ⟨fun hmem => ?_, ih h.2 fun x hx => hs x (List.mem_cons_of_mem _ hx)⟩
    obtain ⟨x, hx, hxe⟩ := List.mem_map.mp hmem
    refine h.1 (List.mem_map.mpr ⟨x, hx, ?_⟩)
    have h1 : x.1 = s := hs x (List.mem_cons_of_mem _ hx)
    have h2 : e.1 = s := hs e (List.mem_cons_self _ _)
    show (x.1, x.2.1) = (e.1, e.2.1)
    rw [h1, h2, hxe]

theorem outEdges_dst_nodup (g : TradeGraph) (s : String)
    (h : (g.edges.map (fun e => (e.1, e.2.1))).Nodup) :
    ((outEdges g s).map (fun e => e.2.1)).Nodup := by
  refine nodup_dst_of_nodup_keys s ?_ ?_
  · exact ((List.filter_sublist _).map _).nodup h
  · intro e he
    simpa using List.of_mem_filter he

theorem filter_dst_eq_single {l : List (String × String × ℚ)} {n : String}
    {e : String × String × ℚ} (hnd : (l.map (fun x => x.2.1)).Nodup)
    (hfind : l.find? (fun x => x.2.1 == n) = some e) :
    l.filter (fun x => x.2.1 == n) = [e] := by
  induction l with
  | nil => simp at hfind
  | cons x t ih =>
    rw [List.map_cons] at hnd
    obtain ⟨hnd1, hnd2⟩ := List.nodup_cons.mp hnd
    rw [List.find?_cons] at hfind
    by_cases hx : (x.2.1 == n) = true
    · rw [hx] at hfind
      obtain rfl : x = e := Option.some.inj hfind
      have hxn : x.2.1 = n := by simpa using hx
      have hrest : t.filter (fun y => y.2.1 == n) = [] := by
        rw [List.filter_eq_nil_iff]
        intro y hy hyb
        have hyn : y.2.1 = n := by simpa using hyb
        exact hnd1 (by rw [hxn, ← hyn]; exact List.mem_map_of_mem _ hy)
      simp [List.filter_cons, hx, hrest]
    · rw [Bool.eq_false_iff.mpr hx] at hfind
      simp [List.filter_cons, hx, ih hnd2 hfind]

theorem filter_dst_eq_nil {l : List (String × String × ℚ)} {n : String}
    (hfind : l.find? (fun x => x.2.1 == n) = none) :
    l.filter (fun x => x.2.1 == n) = [] := by
  rw [List.filter_eq_nil_iff]
  intro y hy
  exact fun hyb => by simp [List.find?_eq_none.mp hfind y hy] at hyb

theorem apply_deficits_eq_addOffsets (g : TradeGraph) (s : String) (r : ℚ)
    (hwf : WellFormed g) :
    apply_deficits g s r = addOffsets g (offsum g.edges s r) := by
  obtain ⟨hnodes, hkeys, hends⟩ := hwf
  have hdst : ((outEdges g s).map (fun e => e.2.1)).Nodup := outEdges_dst_nodup g s hkeys
  refine tg_ext ?_ (setAll_edges _ _) (setAll_sum _ _)
  have hkvs :
      (((outEdges g s).map
        (fun e => (e.2.1, getDeficit g e.2.1 + e.2.2 * r))).map Prod.fst).Nodup := by
    rw [List.map_map]
    simpa [Function.comp] using hdst
  rw [apply_deficits, setAll_nodes _ _ hkvs, addOffsets]
  refine List.map_congr_left fun p hp => ?_
  rw [List.find?_map]
  rw [show ((fun kv : String × ℚ => kv.1 == p.1) ∘
      (fun e : String × String × ℚ => (e.2.1, getDeficit g e.2.1 + e.2.2 * r))) =
      (fun e : String × String × ℚ => e.2.1 == p.1) from rfl]
  have houts : g.edges.filter (fun e => e.1 == s) = outEdges g s := rfl
  cases hfind : (outEdges g s).find? (fun e => e.2.1 == p.1) with
  | none =>
    have h0 : offsum g.edges s r p.1 = 0 := by
      rw [offsum, houts, filter_dst_eq_nil hfind]
      rfl
    simp [h0]
  | some e =>
    have hsingle : (outEdges g s).filter (fun x => x.2.1 == p.1) = [e] :=
      filter_dst_eq_single hdst hfind
    have hoff : offsum g.edges s r p.1 = e.2.2 * r := by
      rw [offsum, houts, hsingle]
      simp
    have hdef : getDeficit g e.2.1 = p.2.deficit := by
      have he : e.2.1 = p.1 := by simpa using List.find?_some hfind
      rw [he]
      exact getDeficit_of_mem hnodes hp
    simp [hoff, hdef]

/-! ### `addOffsets` algebra -/

theorem addOffsets_edges (g : TradeGraph) (off : String → ℚ) :
    (addOffsets g off).edges = g.edges := rfl

theorem addOffsets_sum (g : TradeGraph) (off : String → ℚ) :
    (addOffsets g off).sum_of_trade = g.sum_of_trade := rfl

theorem nodeNames_addOffsets (g : TradeGraph) (off : String → ℚ) :
    nodeNames (addOffsets g off) = nodeNames g := by
  simp [nodeNames, addOffsets, List.map_map, Function.comp]

theorem addOffsets_addOffsets (g : TradeGraph) (f1 f2 : String → ℚ) :
    addOffsets (addOffsets g f1) f2 = addOffsets g (fun n => f1 n + f2 n) := by
  refine tg_ext ?_ rfl rfl
  simp only [addOffsets, List.map_map]
  refine List.map_congr_left fun p _ => ?_
  simp [Function.comp, add_assoc]

theorem addOffsets_zero (g : TradeGraph) : addOffsets g (fun _ => 0) = g := by
  refine tg_ext ?_ rfl rfl
  show g.nodes.map (fun p => (p.1, { p.2 with deficit := p.2.deficit + 0 })) = g.nodes
  have : ∀ p : String × NodeData,
      (p.1, { p.2 with deficit := p.2.deficit + 0 }) = p := by
    rintro ⟨n, d⟩
    simp
  simp only [this, List.map_id']

theorem addOffsets_wf {g : TradeGraph} (off : String → ℚ) (hwf : WellFormed g) :
    WellFormed (addOffsets g off) := by
  obtain ⟨h1, h2, h3⟩ := hwf
  refine ⟨?_, ?_, ?_⟩
  · rw [nodeNames_addOffsets]; exact h1
  · exact h2
  · intro e he
    rw [nodeNames_addOffsets]
    exact h3 e he

theorem applyScenario_eq_addOffsets (S : List (String × ℚ)) (g : TradeGraph)
    (hwf : WellFormed g) (hval : ∀ p ∈ S, hasNode g p.1 = true) :
    applyScenario g S = (addOffsets g (scenarioOffset g.edges S), none) := by
  induction S generalizing g with
  | nil =>
    have h0 : scenarioOffset g.edges [] = fun _ => (0 : ℚ) := by
      funext n
      simp [scenarioOffset]
    rw [h0, addOffsets_zero]
    rfl
  | cons p rest ih =>
    obtain ⟨s, f⟩ := p
    have hs : hasNode g s = true := hval _ (List.mem_cons_self _ _)
    have hstep : applyScenario g ((s, f) :: rest) =
        applyScenario (apply_deficits g s (1 - f)) rest := by
      simp [applyScenario, hs]
    rw [hstep, apply_deficits_eq_addOffsets g s (1 - f) hwf]
    have hval' : ∀ q ∈ rest, hasNode (addOffsets g (offsum g.edges s (1 - f))) q.1 = true := by
      intro q hq
      rw [hasNode_congr (nodeNames_addOffsets g _)]
      exact hval q (List.mem_cons_of_mem _ hq)
    rw [ih _ (addOffsets_wf _ ⟨hwf.1, hwf.2.1, hwf.2.2⟩) hval']
    rw [show (addOffsets g (offsum g.edges s (1 - f))).edges = g.edges from rfl]
    rw [addOffsets_addOffsets]
    have hfun : (fun n => offsum g.edges s (1 - f) n + scenarioOffset g.edges rest n) =
        scenarioOffset g.edges ((s, f) :: rest) := by
      funext n
      simp [scenarioOffset]
    rw [hfun]

/-! ### Summation lemmas: partitioning edge sums over the node list -/

theorem sum_map_add {α : Type} (l : List α) (f h : α → ℚ) :
    (l.map (fun a => f a + h a)).sum = (l.map f).sum + (l.map h).sum := by
  induction l with
  | nil => simp
  | cons a t ih =>
    simp only [List.map_cons, List.sum_cons, ih]
    ring

theorem sum_map_mul {α : Type} (l : List α) (f : α → ℚ) (r : ℚ) :
    (l.map (fun a => f a * r)).sum = (l.map f).sum * r := by
  induction l with
  | nil => simp
  | cons a t ih =>
    simp only [List.map_cons, List.sum_cons, ih]
    ring

theorem sum_map_ite {names : List String} (x : String) (q : ℚ) (hnd : names.Nodup)
    (hx : x ∈ names) : (names.map (fun n => if x = n then q else 0)).sum = q := by
  induction names with
  | nil => cases hx
  | cons y t ih =>
    obtain ⟨h1, h2⟩ := List.nodup_cons.mp hnd
    rcases List.mem_cons.mp hx with rfl | hxt
    · simp only [List.map_cons, List.sum_cons, if_pos rfl]
      have hz : ∀ v ∈ t.map (fun n => if x = n then q else 0), v = 0 := by
        intro v hv
        obtain ⟨n, hn, rfl⟩ := List.mem_map.mp hv
        rw [if_neg]
        intro he
        exact h1 (by rw [he]; exact hn)
      simp [List.sum_eq_zero hz]
    · have hne : x ≠ y := fun he => h1 (by rw [← he]; exact hxt)
      simp only [List.map_cons, List.sum_cons, if_neg hne, zero_add]
      exact ih h2 hxt

theorem sum_filter_partition (k : String × String × ℚ → String)
    (f : String × String × ℚ → ℚ) (names : List String)
    (E : List (String × String × ℚ)) (hnd : names.Nodup)
    (hE : ∀ e ∈ E, k e ∈ names) :
    (names.map (fun n => ((E.filter (fun e => k e == n)).map f).sum)).sum = (E.map f).sum := by
  induction E with
  | nil =>
    simp only [List.filter_nil, List.map_nil, List.sum_nil]
    exact List.sum_eq_zero fun v hv => by
      obtain ⟨n, _, rfl⟩ := List.mem_map.mp hv
      rfl
  | cons e E' ih =>
    have hsplit : ∀ n, (((e :: E').filter (fun x => k x == n)).map f).sum =
        (if k e = n then f e else 0) + ((E'.filter (fun x => k x == n)).map f).sum := by
      intro n
      by_cases h : k e = n
      · simp [List.filter_cons, h]
      · simp [List.filter_cons, h]
    rw [List.map_congr_left fun n _ => hsplit n, sum_map_add,
      sum_map_ite (k e) (f e) hnd (hE e (List.mem_cons_self _ _)),
      ih fun x hx => hE x (List.mem_cons_of_mem _ hx)]
    simp

theorem sum_sum_swap (names : List String) (S : List (String × ℚ))
    (h : String × ℚ → String → ℚ) :
    (names.map (fun n => (S.map (fun p => h p n)).sum)).sum =
      (S.map (fun p => (names.map (h p)).sum)).sum := by
  induction S with
  | nil =>
    simp only [List.map_nil, List.sum_nil]
    exact List.sum_eq_zero fun v hv => by
      obtain ⟨n, _, rfl⟩ := List.mem_map.mp hv
      rfl
  | cons p S' ih =>
    have hsplit : ∀ n, ((p :: S').map (fun q => h q n)).sum =
        h p n + (S'.map (fun q => h q n)).sum := by
      intro n
      simp
    rw [List.map_congr_left fun n _ => hsplit n, sum_map_add, ih]
    simp

theorem total_addOffsets (g : TradeGraph) (off : String → ℚ) :
    total_deficits (addOffsets g off) = total_deficits g + ((nodeNames g).map off).sum := by
  simp only [total_deficits, addOffsets, List.map_map, nodeNames]
  rw [show (g.nodes.map ((fun p : String × NodeData => p.2.deficit) ∘
      (fun p : String × NodeData => (p.1, { p.2 with deficit := p.2.deficit + off p.1 })))) =
      g.nodes.map (fun p : String × NodeData => p.2.deficit + off p.1) from rfl]
  rw [sum_map_add]
  rfl

theorem total_reset (g : TradeGraph) : total_deficits (reset_deficits g) = 0 := by
  simp only [total_deficits, reset_deficits, List.map_map]
  exact List.sum_eq_zero fun v hv => by
    obtain ⟨p, _, rfl⟩ := List.mem_map.mp hv
    rfl

theorem sum_offsum_over_names (g : TradeGraph) (s : String) (r : ℚ)
    (hnd : (nodeNames g).Nodup)
    (hends : ∀ e ∈ g.edges, e.1 ∈ nodeNames g ∧ e.2.1 ∈ nodeNames g) :
    ((nodeNames g).map (offsum g.edges s r)).sum = get_export_sum g s * r := by
  have hpart := sum_filter_partition (fun e => e.2.1) (fun e => e.2.2 * r) (nodeNames g)
    (outEdges g s) hnd (fun e he => (hends e (List.mem_of_mem_filter he)).2)
  rw [show (nodeNames g).map (offsum g.edges s r) =
      (nodeNames g).map (fun n =>
        (((outEdges g s).filter (fun e => e.2.1 == n)).map (fun e => e.2.2 * r)).sum)
    from rfl]
  rw [hpart, get_export_sum, sum_map_mul]

/-! ### Builder invariants: every graph `__init__` returns is well formed and
its `sum_of_trade` is the sum of the final edge amounts -/

theorem foldl_uniq_nodup (l : List String) (acc : List String) (hacc : acc.Nodup) :
    (l.foldl (fun acc c => if c ∈ acc then acc else acc ++ [c]) acc).Nodup := by
  induction l generalizing acc with
  | nil => simpa using hacc
  | cons c t ih =>
    simp only [List.foldl_cons]
    by_cases hc : c ∈ acc
    · rw [if_pos hc]
      exact ih _ hacc
    · rw [if_neg hc]
      refine ih _ ?_
      simp [List.nodup_append, hacc, hc]

theorem uniqueFirst_nodup (l : List String) : (uniqueFirst l).Nodup :=
  foldl_uniq_nodup l [] (by simp)

theorem buildNodes_inv (iso : String → Option String) (cen : String → Option (ℚ × ℚ))
    (l : List String) :
    ∀ g g' : TradeGraph, (nodeNames g ++ l).Nodup → g.edges = [] →
      buildNodes iso cen g l = Except.ok g' →
      (nodeNames g').Nodup ∧ g'.edges = [] := by
  induction l with
  | nil =>
    intro g g' hnd hed h
    cases h
    exact ⟨by simpa using (List.nodup_append.mp hnd).1, hed⟩
  | cons c t ih =>
    intro g g' hnd hed h
    rw [buildNodes] at h
    by_cases hc : c = "Unspecified Area"
    · rw [if_pos hc] at h
      refine ih g g' (((List.sublist_cons_self c t).append_left _).nodup hnd) hed h
    · rw [if_neg hc] at h
      cases hiso : iso c with
      | none => rw [hiso] at h; cases h
      | some i =>
        cases hcen : cen c with
        | none => rw [hiso, hcen] at h; cases h
        | some p =>
          rw [hiso, hcen] at h
          refine ih _ g' ?_ (by simpa using hed) h
          have hnames : nodeNames { g with nodes := g.nodes ++ [(c, defaultNodeData c i p)] } =
              nodeNames g ++ [c] := by
            simp [nodeNames]
          rw [hnames, List.append_assoc, List.singleton_append]
          exact hnd

theorem ensureNode_edges (g : TradeGraph) (c : String) : (ensureNode g c).edges = g.edges := by
  unfold ensureNode
  split <;> rfl

theorem ensureNode_mem (g : TradeGraph) (c : String) : c ∈ nodeNames (ensureNode g c) := by
  unfold ensureNode
  by_cases h : hasNode g c = true
  · rw [if_pos h]
    exact hasNode_iff.mp h
  · rw [if_neg h]
    simp [nodeNames]

theorem ensureNode_names_mono (g : TradeGraph) (c x : String) (hx : x ∈ nodeNames g) :
    x ∈ nodeNames (ensureNode g c) := by
  unfold ensureNode
  split
  · exact hx
  · simp only [nodeNames, List.map_append, List.mem_append]
    exact Or.inl hx

theorem ensureNode_nodup (g : TradeGraph) (c : String) (h : (nodeNames g).Nodup) :
    (nodeNames (ensureNode g c)).Nodup := by
  unfold ensureNode
  by_cases hc : hasNode g c = true
  · rw [if_pos hc]
    exact h
  · rw [if_neg hc]
    have hnames : nodeNames { g with nodes := g.nodes ++ [(c, implicitNodeData)] } =
        nodeNames g ++ [c] := by
      simp [nodeNames]
    rw [hnames]
    have hcn : c ∉ nodeNames g := fun hmem => hc (hasNode_iff.mpr hmem)
    simp [List.nodup_append, h, hcn]

theorem not_key_mem_of_hasEdge_false {g : TradeGraph} {u v : String}
    (h : hasEdge g u v = false) : (u, v) ∉ g.edges.map (fun e => (e.1, e.2.1)) := by
  intro hmem
  obtain ⟨e, he, heq⟩ := List.mem_map.mp hmem
  have h1 : e.1 = u := congrArg Prod.fst heq
  have h2 : e.2.1 = v := congrArg Prod.snd heq
  have htrue : hasEdge g u v = true := by
    rw [hasEdge, List.any_eq_true]
    exact ⟨e, he, by simp [h1, h2]⟩
  rw [h] at htrue
  cases htrue

theorem add_edge_wf (g : TradeGraph) (u v : String) (a : ℚ) (hwf : WellFormed g) :
    WellFormed (add_edge g u v a) := by
  obtain ⟨h1, h2, h3⟩ := hwf
  have h1' : (nodeNames (ensureNode (ensureNode g u) v)).Nodup :=
    ensureNode_nodup _ _ (ensureNode_nodup _ _ h1)
  have hedges1 : (ensureNode (ensureNode g u) v).edges = g.edges := by
    rw [ensureNode_edges, ensureNode_edges]
  have hu : u ∈ nodeNames (ensureNode (ensureNode g u) v) :=
    ensureNode_names_mono _ _ _ (ensureNode_mem g u)
  have hv : v ∈ nodeNames (ensureNode (ensureNode g u) v) := ensureNode_mem _ v
  have h3' : ∀ e ∈ (ensureNode (ensureNode g u) v).edges,
      e.1 ∈ nodeNames (ensureNode (ensureNode g u) v) ∧
      e.2.1 ∈ nodeNames (ensureNode (ensureNode g u) v) := by
    intro e he
    rw [hedges1] at he
    exact ⟨ensureNode_names_mono _ _ _ (ensureNode_names_mono _ _ _ (h3 e he).1),
      ensureNode_names_mono _ _ _ (ensureNode_names_mono _ _ _ (h3 e he).2)⟩
  rw [add_edge]
  by_cases hhe : hasEdge (ensureNode (ensureNode g u) v) u v = true
  · rw [if_pos hhe]
    refine ⟨h1', ?_, ?_⟩
    · have hkeys : ((ensureNode (ensureNode g u) v).edges.map
          (fun e => if e.1 == u && e.2.1 == v then (u, v, a) else e)).map
          (fun e => (e.1, e.2.1)) =
          (ensureNode (ensureNode g u) v).edges.map (fun e => (e.1, e.2.1)) := by
        rw [List.map_map]
        refine List.map_congr_left fun e _ => ?_
        by_cases hc : (e.1 == u && e.2.1 == v) = true
        · have h1e : e.1 = u := by
            have := (Bool.and_eq_true _ _).mp hc
            simpa using this.1
          have h2e : e.2.1 = v := by
            have := (Bool.and_eq_true _ _).mp hc
            simpa using this.2
          simp [Function.comp, hc, h1e, h2e]
        · simp [Function.comp, hc]
      rw [show ({ ensureNode (ensureNode g u) v with
          edges := (ensureNode (ensureNode g u) v).edges.map
            (fun e => if e.1 == u && e.2.1 == v then (u, v, a) else e) } : TradeGraph).edges =
          (ensureNode (ensureNode g u) v).edges.map
            (fun e => if e.1 == u && e.2.1 == v then (u, v, a) else e) from rfl]
      rw [hkeys, hedges1]
      exact h2
    · intro e he
      obtain ⟨x, hx, rfl⟩ := List.mem_map.mp he
      by_cases hc : (x.1 == u && x.2.1 == v) = true
      · rw [if_pos hc]
        exact ⟨hu, hv⟩
      · rw [if_neg hc]
        exact h3' x hx
  · rw [if_neg hhe]
    refine ⟨h1', ?_, ?_⟩
    · rw [show ({ ensureNode (ensureNode g u) v with
          edges := (ensureNode (ensureNode g u) v).edges ++ [(u, v, a)] } : TradeGraph).edges =
          (ensureNode (ensureNode g u) v).edges ++ [(u, v, a)] from rfl]
      rw [List.map_append]
      have hkey : (u, v) ∉ (ensureNode (ensureNode g u) v).edges.map (fun e => (e.1, e.2.1)) :=
        not_key_mem_of_hasEdge_false (Bool.eq_false_iff.mpr hhe)
      rw [hedges1] at hkey ⊢
      simp [List.nodup_append, h2, hkey]
    · intro e he
      rcases List.mem_append.mp he with he | he
      · exact h3' e he
      · rw [List.mem_singleton] at he
        subst he
        exact ⟨hu, hv⟩

theorem addTradeRow_wf {g g' : TradeGraph} {row : TradeRow} (hwf : WellFormed g)
    (h : addTradeRow g row = Except.ok g') : WellFormed g' := by
  rw [addTradeRow] at h
  cases hrow : create_nx_edge_from_trade_row row with
  | none =>
    rw [hrow] at h
    cases h
  | some uv =>
    obtain ⟨u, v⟩ := uv
    simp only [hrow] at h
    by_cases hua : u = "Unspecified Area" ∨ v = "Unspecified Area"
    · rw [if_pos hua] at h
      cases h
      exact hwf
    · rw [if_neg hua] at h
      by_cases hhe : hasEdge g u v = true
      · rw [if_pos hhe] at h
        cases h
        exact add_edge_wf _ _ _ _ hwf
      · rw [if_neg hhe] at h
        cases h
        exact add_edge_wf _ _ _ _ hwf

theorem buildEdges_wf (rows : List TradeRow) :
    ∀ g g' : TradeGraph, WellFormed g → buildEdges g rows = Except.ok g' → WellFormed g' := by
  induction rows with
  | nil =>
    intro g g' hwf h
    cases h
    exact hwf
  | cons row rest ih =>
    intro g g' hwf h
    rw [buildEdges] at h
    cases hrow : addTradeRow g row with
    | error e => rw [hrow] at h; cases h
    | ok g1 =>
      rw [hrow] at h
      exact ih g1 g' (addTradeRow_wf hwf hrow) h

theorem build_parts {iso : String → Option String} {cen : String → Option (ℚ × ℚ)}
    {rows : List TradeRow} {g : TradeGraph} (h : build iso cen rows = Except.ok g) :
    ∃ g1 g2,
      buildNodes iso cen ⟨[], [], 0⟩ (uniqueFirst (rows.map (fun r => r.partner))) =
        Except.ok g1 ∧
      buildEdges g1 rows = Except.ok g2 ∧
      g = { g2 with sum_of_trade := (g2.edges.map (fun e => e.2.2)).sum } := by
  rw [build] at h
  cases h1 : buildNodes iso cen ⟨[], [], 0⟩ (uniqueFirst (rows.map (fun r => r.partner))) with
  | error e => rw [h1] at h; cases h
  | ok g1 =>
    simp only [h1] at h
    cases h2 : buildEdges g1 rows with
    | error e => simp only [h2] at h; cases h
    | ok g2 =>
      simp only [h2] at h
      cases h
      exact ⟨g1, g2, rfl, h2, rfl⟩

theorem build_wf {iso : String → Option String} {cen : String → Option (ℚ × ℚ)}
    {rows : List TradeRow} {g : TradeGraph} (h : build iso cen rows = Except.ok g) :
    WellFormed g := by
  obtain ⟨g1, g2, h1, h2, rfl⟩ := build_parts h
  have hinv := buildNodes_inv iso cen (uniqueFirst (rows.map (fun r => r.partner)))
    ⟨[], [], 0⟩ g1 (by simpa [nodeNames] using uniqueFirst_nodup _) rfl h1
  have hwf1 : WellFormed g1 := by
    refine ⟨hinv.1, ?_, ?_⟩
    · rw [hinv.2]
      exact List.nodup_nil
    · intro e he
      rw [hinv.2] at he
      cases he
  have hwf2 : WellFormed g2 := buildEdges_wf rows g1 g2 hwf1 h2
  exact ⟨hwf2.1, hwf2.2.1, hwf2.2.2⟩

theorem build_sum {iso : String → Option String} {cen : String → Option (ℚ × ℚ)}
    {rows : List TradeRow} {g : TradeGraph} (h : build iso cen rows = Except.ok g) :
    g.sum_of_trade = (g.edges.map (fun e => e.2.2)).sum := by
  obtain ⟨g1, g2, h1, h2, rfl⟩ := build_parts h
  rfl

theorem reset_wf {g : TradeGraph} (hwf : WellFormed g) : WellFormed (reset_deficits g) := by
  refine ⟨?_, ?_, ?_⟩
  · rw [nodeNames_reset]
    exact hwf.1
  · rw [reset_edges]
    exact hwf.2.1
  · rw [reset_edges]
    intro e he
    rw [nodeNames_reset]
    exact hwf.2.2 e he

theorem evalTail_err_of_zero_import (r : TradeGraph × Option String) (h : r.2 = none)
    (hsum : r.1.sum_of_trade ≠ 0) (c : String) (hc : c ∈ nodeNames r.1)
    (h0 : get_import_sum r.1 c = 0) :
    (evalTail r).2 = Except.error "ZeroDivisionError: division by zero" := by
  have herr : (update_relative_deficits r.1).2 = some "ZeroDivisionError: division by zero" :=
    update_relative_deficits_err _ _ hc h0
  simp only [evalTail, h, if_neg hsum, herr]

/-- C6: evaluating a scenario `S1` and then a scenario `S2` (all of whose
sources are nodes of the graph) gives, for the `S2` evaluation, exactly the
result of evaluating `S2` alone on the freshly built graph: `reset_deficits`
wipes all per-country deficit state, so no residue survives between runs. -/
theorem reset_invariant (g : TradeGraph) (S1 S2 : List (String × ℚ))
    (_h1 : ∀ p ∈ S1, hasNode g p.1 = true) (_h2 : ∀ p ∈ S2, hasNode g p.1 = true) :
    plot_export_restriction_scenario (plot_export_restriction_scenario g S1).1 S2 =
      plot_export_restriction_scenario g S2 := by
  have hdef : ∀ (h : TradeGraph) (S : List (String × ℚ)),
      plot_export_restriction_scenario h S = evalTail (applyScenario (reset_deficits h) S) :=
    fun _ _ => rfl
  rw [hdef (plot_export_restriction_scenario g S1).1 S2, reset_plot_fst, ← hdef]

/-- C6 witness at a concrete graph and scenarios. -/
theorem reset_invariant_witness :
    (∀ p ∈ [(("A" : String), (0 : ℚ))], hasNode gW p.1 = true) ∧
    (∀ p ∈ [(("A" : String), (1 : ℚ))], hasNode gW p.1 = true) ∧
    plot_export_restriction_scenario
        (plot_export_restriction_scenario gW [("A", 0)]).1 [("A", 1)] =
      plot_export_restriction_scenario gW [("A", 1)] :=
  ⟨by decide, by decide, reset_invariant gW [("A", 0)] [("A", 1)] (by decide) (by decide)⟩

/-- C9: a complete evaluation mutates only per-node `deficit` and
`deficit_relative`: the edge list (topology and amounts), `sum_of_trade`,
and every node's name, ISO code and centroid are unchanged. -/
theorem frame_only_deficits (g : TradeGraph) (S : List (String × ℚ))
    (_hval : ∀ p ∈ S, hasNode g p.1 = true) :
    (plot_export_restriction_scenario g S).1.edges = g.edges ∧
    (plot_export_restriction_scenario g S).1.sum_of_trade = g.sum_of_trade ∧
    (plot_export_restriction_scenario g S).1.nodes.map
        (fun p => (p.1, p.2.name, p.2.iso, p.2.centroid)) =
      g.nodes.map (fun p => (p.1, p.2.name, p.2.iso, p.2.centroid)) := by
  have hreset := reset_plot_fst g S
  refine ⟨?_, ?_, ?_⟩
  · have h := congrArg TradeGraph.edges hreset
    simpa [reset_edges] using h
  · have h := congrArg TradeGraph.sum_of_trade hreset
    simpa [reset_sum] using h
  · have h := congrArg
      (fun x : TradeGraph => x.nodes.map
        (fun p : String × NodeData => (p.1, p.2.name, p.2.iso, p.2.centroid))) hreset
    simpa [reset_deficits, List.map_map, Function.comp] using h

/-- C9 witness at a concrete graph and scenario. -/
theorem frame_only_deficits_witness :
    (∀ p ∈ [(("A" : String), (0 : ℚ))], hasNode gW p.1 = true) ∧
    ((plot_export_restriction_scenario gW [("A", 0)]).1.edges = gW.edges ∧
     (plot_export_restriction_scenario gW [("A", 0)]).1.sum_of_trade = gW.sum_of_trade ∧
     (plot_export_restriction_scenario gW [("A", 0)]).1.nodes.map
         (fun p => (p.1, p.2.name, p.2.iso, p.2.centroid)) =
       gW.nodes.map (fun p => (p.1, p.2.name, p.2.iso, p.2.centroid))) :=
  ⟨by decide, frame_only_deficits gW [("A", 0)] (by decide)⟩

/-- C7: for a well-formed graph and a valid scenario with at least two
sources, the evaluation result is invariant under permuting the scenario
entries: each source's contribution is read off the original edge amounts
and the contributions add, so the order of processing does not matter. -/
theorem order_independence (g : TradeGraph) (S1 S2 : List (String × ℚ))
    (hwf : WellFormed g) (_hlen : 2 ≤ S1.length) (hperm : S1.Perm S2)
    (hval : ∀ p ∈ S1, hasNode g p.1 = true) :
    plot_export_restriction_scenario g S1 = plot_export_restriction_scenario g S2 := by
  unfold plot_export_restriction_scenario
  have hwfr : WellFormed (reset_deficits g) := reset_wf hwf
  have hval1 : ∀ p ∈ S1, hasNode (reset_deficits g) p.1 = true := fun p hp => by
    rw [hasNode_congr (nodeNames_reset g)]
    exact hval p hp
  have hval2 : ∀ p ∈ S2, hasNode (reset_deficits g) p.1 = true := fun p hp =>
    hval1 p (hperm.mem_iff.mpr hp)
  rw [applyScenario_eq_addOffsets S1 _ hwfr hval1, applyScenario_eq_addOffsets S2 _ hwfr hval2]
  have hoff : scenarioOffset (reset_deficits g).edges S1 =
      scenarioOffset (reset_deficits g).edges S2 := by
    funext n
    exact (hperm.map _).sum_eq
  rw [hoff]

/-- C7 witness at a concrete graph and a transposed two-source scenario. -/
theorem order_independence_witness :
    WellFormed gW ∧ 2 ≤ ([(("A" : String), (0 : ℚ)), ("B", 1)] : List (String × ℚ)).length ∧
    ([(("A" : String), (0 : ℚ)), ("B", 1)] : List (String × ℚ)).Perm [("B", 1), ("A", 0)] ∧
    (∀ p ∈ [(("A" : String), (0 : ℚ)), ("B", 1)], hasNode gW p.1 = true) ∧
    plot_export_restriction_scenario gW [("A", 0), ("B", 1)] =
      plot_export_restriction_scenario gW [("B", 1), ("A", 0)] :=
  ⟨by decide, by decide, by decide, by decide,
    order_independence gW _ _ (by decide) (by decide) (by decide) (by decide)⟩

/-- C8: for a well-formed graph, non-negative amounts, and a valid scenario
(a dict: distinct sources) with retained fractions in `(0, 1]`, the global
absolute deficit after the evaluation is at most the sum of the restricted
sources' export volumes. -/
theorem conservation_bound (g : TradeGraph) (S : List (String × ℚ))
    (hwf : WellFormed g) (hpos : ∀ e ∈ g.edges, 0 ≤ e.2.2)
    (_hkeys : (S.map Prod.fst).Nodup) (hfrac : ∀ p ∈ S, 0 < p.2 ∧ p.2 ≤ 1)
    (hval : ∀ p ∈ S, hasNode g p.1 = true) :
    total_deficits (plot_export_restriction_scenario g S).1 ≤
      (S.map (fun p => get_export_sum g p.1)).sum := by
  unfold plot_export_restriction_scenario
  rw [total_evalTail]
  have hval' : ∀ p ∈ S, hasNode (reset_deficits g) p.1 = true := fun p hp => by
    rw [hasNode_congr (nodeNames_reset g)]
    exact hval p hp
  rw [applyScenario_eq_addOffsets S _ (reset_wf hwf) hval']
  rw [show (addOffsets (reset_deficits g) (scenarioOffset (reset_deficits g).edges S),
      (none : Option String)).1 =
      addOffsets (reset_deficits g) (scenarioOffset (reset_deficits g).edges S) from rfl]
  rw [total_addOffsets, total_reset, zero_add]
  rw [show (reset_deficits g).edges = g.edges from rfl]
  rw [nodeNames_reset]
  rw [show (nodeNames g).map (scenarioOffset g.edges S) =
      (nodeNames g).map
        (fun n => (S.map (fun p => offsum g.edges p.1 (1 - p.2) n)).sum) from rfl]
  rw [sum_sum_swap (nodeNames g) S (fun p n => offsum g.edges p.1 (1 - p.2) n)]
  refine List.sum_le_sum fun p hp => ?_
  rw [sum_offsum_over_names g p.1 (1 - p.2) hwf.1 hwf.2.2]
  have hexp : 0 ≤ get_export_sum g p.1 := by
    refine List.sum_nonneg fun x hx => ?_
    obtain ⟨e, he, rfl⟩ := List.mem_map.mp hx
    exact hpos e (List.mem_of_mem_filter he)
  have hr : 1 - p.2 ≤ 1 := by
    have := (hfrac p hp).1
    linarith
  exact mul_le_of_le_one_right hexp hr

/-- C8 witness at a concrete graph and a full-embargo scenario. -/
theorem conservation_bound_witness :
    WellFormed gW ∧ (∀ e ∈ gW.edges, 0 ≤ e.2.2) ∧
    (([(("A" : String), (1 : ℚ))] : List (String × ℚ)).map Prod.fst).Nodup ∧
    (∀ p ∈ [(("A" : String), (1 : ℚ))], 0 < p.2 ∧ p.2 ≤ 1) ∧
    (∀ p ∈ [(("A" : String), (1 : ℚ))], hasNode gW p.1 = true) ∧
    total_deficits (plot_export_restriction_scenario gW [("A", 1)]).1 ≤
      (([(("A" : String), (1 : ℚ))] : List (String × ℚ)).map
        (fun p => get_export_sum gW p.1)).sum :=
  ⟨by decide, by norm_num [gW], by decide, by norm_num, by decide,
    conservation_bound gW [("A", 1)] (by decide) (by norm_num [gW]) (by decide)
      (by norm_num) (by decide)⟩

/-- C10: in every graph `__init__` builds, the per-country import totals sum
to `sum_of_trade`, and the per-country export totals do as well — the
auxiliary totals partition the global trade volume exactly. -/
theorem totals_partition (iso : String → Option String) (cen : String → Option (ℚ × ℚ))
    (rows : List TradeRow) (g : TradeGraph) (h : build iso cen rows = Except.ok g) :
    (g.nodes.map (fun p => get_import_sum g p.1)).sum = g.sum_of_trade ∧
    (g.nodes.map (fun p => get_export_sum g p.1)).sum = g.sum_of_trade := by
  obtain ⟨hnd, hkeys, hends⟩ := build_wf h
  have hsum := build_sum h
  constructor
  · have hconv : g.nodes.map (fun p => get_import_sum g p.1) =
        (nodeNames g).map (fun n =>
          ((g.edges.filter (fun e => e.2.1 == n)).map (fun e => e.2.2)).sum) := by
      rw [nodeNames, List.map_map]
      rfl
    rw [hconv, sum_filter_partition (fun e => e.2.1) (fun e => e.2.2) (nodeNames g) g.edges
      hnd (fun e he => (hends e he).2), hsum]
  · have hconv : g.nodes.map (fun p => get_export_sum g p.1) =
        (nodeNames g).map (fun n =>
          ((g.edges.filter (fun e => e.1 == n)).map (fun e => e.2.2)).sum) := by
      rw [nodeNames, List.map_map]
      rfl
    rw [hconv, sum_filter_partition (fun e => e.1) (fun e => e.2.2) (nodeNames g) g.edges
      hnd (fun e he => (hends e he).1), hsum]

/-- C5: the builder keeps at most one edge per ordered (source, destination)
pair, and conflicting reports for the same pair merge by a running pairwise
mean: reports `a` then `b` give `(a + b) / 2`, and `a`, `b`, `c` in that
order give `((a + b) / 2 + c) / 2`. -/
theorem merge_pairwise_mean :
    (∀ (iso : String → Option String) (cen : String → Option (ℚ × ℚ))
      (rows : List TradeRow) (g : TradeGraph), build iso cen rows = Except.ok g →
      (g.edges.map (fun e => (e.1, e.2.1))).Nodup) ∧
    (∀ (iso : String → Option String) (cen : String → Option (ℚ × ℚ)) (u v i : String)
      (p : ℚ × ℚ) (a b : ℚ), u ≠ "Unspecified Area" → v ≠ "Unspecified Area" → u ≠ v →
      iso v = some i → cen v = some p →
      ∃ g, build iso cen [⟨v, u, "Export Quantity", a⟩, ⟨v, u, "Export Quantity", b⟩] =
          Except.ok g ∧ getEdgeAmount g u v = some ((a + b) / 2)) ∧
    (∀ (iso : String → Option String) (cen : String → Option (ℚ × ℚ)) (u v i : String)
      (p : ℚ × ℚ) (a b c : ℚ), u ≠ "Unspecified Area" → v ≠ "Unspecified Area" → u ≠ v →
      iso v = some i → cen v = some p →
      ∃ g, build iso cen [⟨v, u, "Export Quantity", a⟩, ⟨v, u, "Export Quantity", b⟩,
            ⟨v, u, "Export Quantity", c⟩] =
          Except.ok g ∧ getEdgeAmount g u v = some (((a + b) / 2 + c) / 2)) := by
  refine ⟨fun iso cen rows g h => (build_wf h).2.1, ?_, ?_⟩
  · intro iso cen u v i p a b hu hv huv hiso hcen
    have hvu : v ≠ u := Ne.symm huv
    refine ⟨⟨[(v, defaultNodeData v i p), (u, implicitNodeData)], [(u, v, (a + b) / 2)],
        (a + b) / 2⟩, ?_, ?_⟩
    · simp [build, buildNodes, buildEdges, addTradeRow, create_nx_edge_from_trade_row,
        add_edge, ensureNode, hasNode, hasEdge, get_combined_trade_estimate, getEdgeAmount,
        uniqueFirst, hu, hv, huv, hvu, hiso, hcen]
    · simp [getEdgeAmount]
  · intro iso cen u v i p a b c hu hv huv hiso hcen
    have hvu : v ≠ u := Ne.symm huv
    refine ⟨⟨[(v, defaultNodeData v i p), (u, implicitNodeData)],
        [(u, v, ((a + b) / 2 + c) / 2)], ((a + b) / 2 + c) / 2⟩, ?_, ?_⟩
    · simp [build, buildNodes, buildEdges, addTradeRow, create_nx_edge_from_trade_row,
        add_edge, ensureNode, hasNode, hasEdge, get_combined_trade_estimate, getEdgeAmount,
        uniqueFirst, hu, hv, huv, hvu, hiso, hcen]
    · simp [getEdgeAmount]

/-- C1 (amended): when the graph contains a country with no incoming trade
edges (and the scenario is valid and `sum_of_trade` is nonzero, so the
evaluation reaches the relative-deficit pass), `update_relative_deficits`
divides that country's deficit by its zero import total and the evaluation
raises `ZeroDivisionError` — `deficit_relative` is not defined as 0. -/
theorem zero_imports_raise_div_error (g : TradeGraph) (S : List (String × ℚ))
    (hval : ∀ p ∈ S, hasNode g p.1 = true) (hsum : g.sum_of_trade ≠ 0)
    (c : String) (hc : c ∈ nodeNames g) (h0 : inEdges g c = []) :
    (plot_export_restriction_scenario g S).2 =
      Except.error "ZeroDivisionError: division by zero" := by
  unfold plot_export_restriction_scenario
  have hval' : ∀ p ∈ S, hasNode (reset_deficits g) p.1 = true := fun p hp => by
    rw [hasNode_congr (nodeNames_reset g)]
    exact hval p hp
  have hsnd := applyScenario_valid_snd S _ hval'
  have hc2 : c ∈ nodeNames (applyScenario (reset_deficits g) S).1 := by
    rw [nodeNames_applyScenario, nodeNames_reset]
    exact hc
  have h02 : get_import_sum (applyScenario (reset_deficits g) S).1 c = 0 := by
    rw [get_import_sum_congr (applyScenario_edges S (reset_deficits g)),
      get_import_sum_congr (reset_edges g)]
    exact get_import_sum_of_no_inEdges g c h0
  have hsum2 : (applyScenario (reset_deficits g) S).1.sum_of_trade ≠ 0 := by
    rw [applyScenario_sum, reset_sum]
    exact hsum
  exact evalTail_err_of_zero_import _ hsnd hsum2 c hc2 h02

/-- C1 witness at a concrete graph whose exporter `A` has no imports. -/
theorem zero_imports_raise_div_error_witness :
    (∀ pr ∈ [(("A" : String), (0 : ℚ))], hasNode gW pr.1 = true) ∧
    gW.sum_of_trade ≠ 0 ∧ "A" ∈ nodeNames gW ∧ inEdges gW "A" = [] ∧
    (plot_export_restriction_scenario gW [("A", 0)]).2 =
      Except.error "ZeroDivisionError: division by zero" :=
  ⟨by decide, by norm_num [gW], by decide, by decide,
    zero_imports_raise_div_error gW [("A", 0)] (by decide) (by norm_num [gW]) "A"
      (by decide) (by decide)⟩

/-- C2 (amended): a scenario entry naming an unknown country makes the
evaluation raise `ValueError` naming that country and return no totals, but
only after mutating the per-node deficit state: all deficits are reset to
zero and the entries before the unknown source are applied. -/
theorem unknown_source_error_after_mutation (g : TradeGraph) (pre : List (String × ℚ))
    (src : String) (f : ℚ) (post : List (String × ℚ))
    (hpre : ∀ p ∈ pre, hasNode g p.1 = true) (hsrc : hasNode g src = false) :
    plot_export_restriction_scenario g (pre ++ (src, f) :: post) =
      ((applyScenario (reset_deficits g) pre).1,
        Except.error ("ValueError: " ++ src ++ " is not in graph")) := by
  unfold plot_export_restriction_scenario
  have hpre' : ∀ p ∈ pre, hasNode (reset_deficits g) p.1 = true := fun p hp => by
    rw [hasNode_congr (nodeNames_reset g)]
    exact hpre p hp
  rw [applyScenario_append pre ((src, f) :: post) _ hpre']
  have hsrc' : hasNode (applyScenario (reset_deficits g) pre).1 src = false := by
    rw [hasNode_congr (nodeNames_applyScenario pre (reset_deficits g)),
      hasNode_congr (nodeNames_reset g)]
    exact hsrc
  rw [applyScenario_unknown _ src f post hsrc']
  rfl

/-- C2 witness at a concrete graph carrying a prior deficit. -/
theorem unknown_source_error_after_mutation_witness :
    (∀ p ∈ ([] : List (String × ℚ)), hasNode gPrior p.1 = true) ∧
    hasNode gPrior "X" = false ∧
    plot_export_restriction_scenario gPrior ([] ++ ("X", (1 : ℚ) / 2) :: []) =
      ((applyScenario (reset_deficits gPrior) []).1,
        Except.error ("ValueError: " ++ "X" ++ " is not in graph")) :=
  ⟨by simp, by decide,
    unknown_source_error_after_mutation gPrior [] "X" ((1 : ℚ) / 2) [] (by simp) (by decide)⟩

section ConcreteEvaluation

attribute [local simp] plot_export_restriction_scenario evalTail applyScenario apply_deficits
  setAll setDeficit setDeficitRelative reset_deficits updateRelLoop update_relative_deficits
  nodeNames hasNode hasEdge getEdgeAmount outEdges inEdges get_import_sum get_export_sum
  getDeficit getDeficitRelative total_deficits gEx gW gPrior defaultNodeData implicitNodeData
  build buildNodes buildEdges addTradeRow create_nx_edge_from_trade_row
  get_combined_trade_estimate add_edge ensureNode uniqueFirst exampleRows isoAll cenAll rowBad

/-- C3 (the code contradicts its own intent here): a record whose `element`
is neither `Import Quantity` nor `Export Quantity` makes
`create_nx_edge_from_trade_row` print its warning and return `None`, and the
caller's membership test `'Unspecified Area' in edge` then raises
`TypeError`, aborting construction instead of skipping the record. -/
theorem unknown_element_aborts_build :
    build isoAll cenAll [rowBad] =
      Except.error "TypeError: argument of type NoneType is not iterable" := by
  rfl

/-- C4 (amended): on the graph with edges `A→B` 100 and `A→C` 50, the
scenario `A: 0.8` produces `B.deficit = 20`, `C.deficit = 10`, total deficit
30, computed global shortfall `30 / 150 * 100 = 20`, and sets
`B.deficit_relative = 20` (and `C.deficit_relative = 20`) — but the
relative-deficit pass then reaches the import-less exporter `A` and the
evaluation raises `ZeroDivisionError` instead of returning the totals. -/
theorem example_scenario_amended :
    build isoAll cenAll exampleRows = Except.ok gEx ∧
    getDeficit (plot_export_restriction_scenario gEx [("A", 0.8)]).1 "B" = 20 ∧
    getDeficit (plot_export_restriction_scenario gEx [("A", 0.8)]).1 "C" = 10 ∧
    getDeficitRelative (plot_export_restriction_scenario gEx [("A", 0.8)]).1 "B" = 20 ∧
    getDeficitRelative (plot_export_restriction_scenario gEx [("A", 0.8)]).1 "C" = 20 ∧
    total_deficits (plot_export_restriction_scenario gEx [("A", 0.8)]).1 = 30 ∧
    total_deficits (plot_export_restriction_scenario gEx [("A", 0.8)]).1 / gEx.sum_of_trade
        * 100 = 20 ∧
    (plot_export_restriction_scenario gEx [("A", 0.8)]).2 =
      Except.error "ZeroDivisionError: division by zero" := by
  refine ⟨?_, ?_, ?_, ?_, ?_, ?_, ?_, ?_⟩ <;> (simp <;> norm_num)

/-- C4 counterexample: the evaluation of the spec's example scenario raises
`ZeroDivisionError` (at the import-less exporter `A`) rather than yielding
the stated result values. -/
theorem example_scenario_cex :
    (plot_export_restriction_scenario gEx [("A", 0.8)]).2 =
      Except.error "ZeroDivisionError: division by zero" := by
  simp <;> norm_num

/-- C1 counterexample: country `A` has zero incoming trade, and the
evaluation raises `ZeroDivisionError` instead of defining `A`'s
`deficit_relative` as 0. -/
theorem zero_imports_not_defined_zero_cex :
    inEdges gW "A" = [] ∧
    (plot_export_restriction_scenario gW [("A", 0.8)]).2 =
      Except.error "ZeroDivisionError: division by zero" := by
  refine ⟨?_, ?_⟩ <;> (simp <;> norm_num)

/-- C2 counterexample: with a leftover deficit of 20 on `B`, a scenario
naming the unknown country `X` raises the validation error but only after
resetting `B`'s deficit to 0 — the per-node deficit state is mutated. -/
theorem unknown_source_mutation_cex :
    getDeficit gPrior "B" = 20 ∧
    (plot_export_restriction_scenario gPrior [("X", 0.5)]).2 =
      Except.error "ValueError: X is not in graph" ∧
    getDeficit (plot_export_restriction_scenario gPrior [("X", 0.5)]).1 "B" = 0 := by
  refine ⟨?_, ?_, ?_⟩ <;> (simp <;> norm_num)

/-- C5 witness: two conflicting reports 100 then 110 merge to their mean,
three reports 100, 110, 120 merge to the running pairwise mean, and the
example build keeps one edge per ordered pair. -/
theorem merge_pairwise_mean_witness :
    (∃ g, build isoAll cenAll
        [⟨"B", "A", "Export Quantity", 100⟩, ⟨"B", "A", "Export Quantity", 110⟩] =
        Except.ok g ∧ getEdgeAmount g "A" "B" = some ((100 + 110) / 2)) ∧
    (∃ g, build isoAll cenAll
        [⟨"B", "A", "Export Quantity", 100⟩, ⟨"B", "A", "Export Quantity", 110⟩,
          ⟨"B", "A", "Export Quantity", 120⟩] =
        Except.ok g ∧ getEdgeAmount g "A" "B" = some (((100 + 110) / 2 + 120) / 2)) ∧
    (gEx.edges.map (fun e => (e.1, e.2.1))).Nodup :=
  ⟨merge_pairwise_mean.2.1 isoAll cenAll "A" "B" _ _ 100 110 (by decide) (by decide)
      (by decide) rfl rfl,
    merge_pairwise_mean.2.2 isoAll cenAll "A" "B" _ _ 100 110 120 (by decide) (by decide)
      (by decide) rfl rfl,
    merge_pairwise_mean.1 isoAll cenAll exampleRows gEx (by simp <;> norm_num)⟩

/-- C10 witness at the example build. -/
theorem totals_partition_witness :
    build isoAll cenAll exampleRows = Except.ok gEx ∧
    ((gEx.nodes.map (fun pp => get_import_sum gEx pp.1)).sum = gEx.sum_of_trade ∧
      (gEx.nodes.map (fun pp => get_export_sum gEx pp.1)).sum = gEx.sum_of_trade) :=
  ⟨by simp <;> norm_num,
    totals_partition isoAll cenAll exampleRows gEx (by simp <;> norm_num)⟩

end ConcreteEvaluation

end TradeGraph

